import Mathlib

/-!
Verification of the `worldcidrs` reconciliation manager
(`pkg/datapath/worldcidrs`, file `world_cidrs.go` of the repository).

The manager keeps an in-kernel IPv4 prefix table (the world-CIDRs BPF map)
synchronized with a store of named CIDR sets.  We embed the manager's code
shallowly: the BPF map becomes a list of keys together with a trace of the
adapter calls (`Iterate`, `Add`, `Delete`) that the code issues, the store
becomes an association list from set identity to CIDR set, and per-call
I/O failures become an explicit fault model.

The `worldcidrsmap` package itself is not part of the analysed sources, so
its key type and normalization are modelled from the specification
(masked address + prefix length, exact-value key equality).
-/

set_option autoImplicit false
set_option maxRecDepth 2000

/-- An IPv4 network prefix as carried by Go's `net.IPNet` after parsing:
a 32-bit address (not necessarily masked) and a prefix length. -/
structure IPNet where
  addr : Nat
  prefixLen : Nat
deriving DecidableEq, Repr

/-- Mask an IPv4 address down to its leading `l` bits (the normalization of
the spec: clear all host bits below the prefix length). -/
def maskAddr (a l : Nat) : Nat :=
  a % 2 ^ 32 / 2 ^ (32 - l) * 2 ^ (32 - l)

/-- Modelled from the spec: the key of the world-CIDRs BPF map
(`worldcidrsmap.WorldCIDRKey4`, not among the analysed sources) — a stored
prefix, i.e. a masked address plus a prefix length. -/
structure WorldCIDRKey4 where
  prefixLen : Nat
  ip : Nat
deriving DecidableEq, Repr

/-- Modelled from the spec: `worldcidrsmap.NewWorldCIDRKey4` normalizes a
CIDR into a map key: masked address + prefix length. -/
def NewWorldCIDRKey4 (cidr : IPNet) : WorldCIDRKey4 :=
  { prefixLen := cidr.prefixLen, ip := maskAddr cidr.addr cidr.prefixLen }

/-- Modelled from the spec: `WorldCIDRKey4.Matches` is exact-value equality
of the stored key with the normalization of the given CIDR — never
subset/superset overlap. -/
def WorldCIDRKey4.Matches (k : WorldCIDRKey4) (cidr : IPNet) : Bool :=
  decide (k = NewWorldCIDRKey4 cidr)

/-- Modelled from the spec: `WorldCIDRKey4.GetCIDR` converts a stored key
back into the CIDR it denotes. -/
def WorldCIDRKey4.GetCIDR (k : WorldCIDRKey4) : IPNet :=
  { addr := k.ip, prefixLen := k.prefixLen }

/-- One call issued to the dataplane table adapter (the world-CIDRs BPF
map): a full iteration, an add of a key, or a delete of a key. -/
inductive TableOp where
  | iterate : TableOp
  | add (k : WorldCIDRKey4) : TableOp
  | delete (k : WorldCIDRKey4) : TableOp
deriving DecidableEq, Repr

def TableOp.isAdd : TableOp → Bool
  | .add _ => true
  | _ => false

def TableOp.isDelete : TableOp → Bool
  | .delete _ => true
  | _ => false

/-- A table-mutating adapter call (an add or a delete, not an iterate). -/
def TableOp.isMutation : TableOp → Bool
  | .iterate => false
  | _ => true

/-- Fault model for the table adapter: which `Add` calls and which `Delete`
calls fail (returning an error to the caller, which only logs it). -/
structure Faults where
  addFails : WorldCIDRKey4 → Bool
  delFails : WorldCIDRKey4 → Bool

/-- The fault-free adapter: every issued call succeeds. -/
def noFaults : Faults :=
  { addFails := fun _ => false, delFails := fun _ => false }

/-- Effect of a successful `WorldCIDRsMap.Add` on the table contents:
upsert of the key (the BPF map is keyed, so a present key stays). -/
def insertKey (k : WorldCIDRKey4) (t : List WorldCIDRKey4) : List WorldCIDRKey4 :=
  if k ∈ t then t else t ++ [k]

/-- The identity of a CIDR set (`cidrSetID = types.NamespacedName`). -/
structure cidrSetID where
  Namespace : String
  Name : String
deriving DecidableEq, Repr

/-- The internal representation of a CiliumWorldCIDRSet (`CIDRSet`). -/
structure CIDRSet where
  id : cidrSetID
  cidrs : List IPNet
deriving DecidableEq, Repr

/-- Go map assignment `manager.cidrSets[cidrSet.id] = &cidrSet` on the
association-list rendering of the store: replace the entry with that key,
or append a fresh one. -/
def insertSet : List (cidrSetID × CIDRSet) → CIDRSet → List (cidrSetID × CIDRSet)
  | [], s => [(s.id, s)]
  | p :: ps, s => if p.1 = s.id then (s.id, s) :: ps else p :: insertSet ps s

/-- Go map deletion `delete(manager.cidrSets, id)`. -/
def deleteSet : List (cidrSetID × CIDRSet) → cidrSetID → List (cidrSetID × CIDRSet)
  | [], _ => []
  | p :: ps, id => if p.1 = id then ps else p :: deleteSet ps id

/-- Go map lookup `manager.cidrSets[id]` (`none` when the id is absent). -/
def lookupSet : List (cidrSetID × CIDRSet) → cidrSetID → Option CIDRSet
  | [], _ => none
  | p :: ps, id => if p.1 = id then some p.2 else lookupSet ps id

/-- All CIDRs listed across the stored sets, in iteration order — the
range of the nested loop `for _, cidrSet := range manager.cidrSets
\x7b for _, cidr := range cidrSet.cidrs \x7d`. -/
def allCIDRs (cidrSets : List (cidrSetID × CIDRSet)) : List IPNet :=
  cidrSets.flatMap (fun p => p.2.cidrs)

/-- The desired table contents: the normalized keys of all CIDRs of all
stored sets. -/
def desiredKeys (cidrSets : List (cidrSetID × CIDRSet)) : List WorldCIDRKey4 :=
  (allCIDRs cidrSets).map NewWorldCIDRKey4

/-- The stale-entry test of `removeUnusedCIDRs`: does some stored set hold
a CIDR that the table key `Matches`? -/
def inAnySet (cidrSets : List (cidrSetID × CIDRSet)) (k : WorldCIDRKey4) : Bool :=
  cidrSets.any (fun p => p.2.cidrs.any (fun cidr => k.Matches cidr))

/-- The `addCIDR` closure of `Manager.addMissingCIDRs`: normalize the CIDR,
skip it when its key is in the snapshot `worldCIDRs`, otherwise issue an
`Add` call (recorded in the trace even when the fault model fails it; a
failure is only logged). -/
def addCIDR (f : Faults) (worldCIDRs : List WorldCIDRKey4)
    (st : List WorldCIDRKey4 × List TableOp) (cidr : IPNet) :
    List WorldCIDRKey4 × List TableOp :=
  let worldCIDRKey := NewWorldCIDRKey4 cidr
  if worldCIDRKey ∈ worldCIDRs then st
  else if f.addFails worldCIDRKey then (st.1, st.2 ++ [TableOp.add worldCIDRKey])
  else (insertKey worldCIDRKey st.1, st.2 ++ [TableOp.add worldCIDRKey])

/-- The nested loop of `Manager.addMissingCIDRs`, flattened over
`allCIDRs`: apply `addCIDR` to every desired CIDR against the fixed
snapshot `worldCIDRs`. -/
def addMissingLoop (f : Faults) (worldCIDRs : List WorldCIDRKey4) :
    List IPNet → List WorldCIDRKey4 × List TableOp → List WorldCIDRKey4 × List TableOp
  | [], st => st
  | cidr :: cs, st => addMissingLoop f worldCIDRs cs (addCIDR f worldCIDRs st cidr)

/-- `Manager.addMissingCIDRs`: snapshot the table via `IterateWithCallback`
(recorded as a `TableOp.iterate`), then add every desired CIDR whose key is
absent from the snapshot. Returns the new table and the issued calls. -/
def addMissingCIDRs (f : Faults) (cidrSets : List (cidrSetID × CIDRSet))
    (table : List WorldCIDRKey4) : List WorldCIDRKey4 × List TableOp :=
  addMissingLoop f table (allCIDRs cidrSets) (table, [TableOp.iterate])

/-- The `nextCIDR` loop of `Manager.removeUnusedCIDRs`: for every snapshot
entry matched by no stored CIDR, issue a `Delete` call (recorded in the
trace even when the fault model fails it; a failure is only logged and the
entry stays). -/
def removeUnusedLoop (f : Faults) (cidrSets : List (cidrSetID × CIDRSet)) :
    List WorldCIDRKey4 → List WorldCIDRKey4 × List TableOp → List WorldCIDRKey4 × List TableOp
  | [], st => st
  | k :: ks, st =>
    if inAnySet cidrSets k then removeUnusedLoop f cidrSets ks st
    else if f.delFails k then removeUnusedLoop f cidrSets ks (st.1, st.2 ++ [TableOp.delete k])
    else removeUnusedLoop f cidrSets ks
      (st.1.filter (fun x => decide (x ≠ k)), st.2 ++ [TableOp.delete k])

/-- `Manager.removeUnusedCIDRs`: snapshot the table via
`IterateWithCallback` (a `TableOp.iterate`), then delete every snapshot
entry not matched by any stored CIDR. -/
def removeUnusedCIDRs (f : Faults) (cidrSets : List (cidrSetID × CIDRSet))
    (table : List WorldCIDRKey4) : List WorldCIDRKey4 × List TableOp :=
  removeUnusedLoop f cidrSets table (table, [TableOp.iterate])

/-- `Manager.reconcile`: a no-op unless `K8sCacheIsSynced()` answers true
at this very invocation (`synced`); otherwise run `addMissingCIDRs` and
then `removeUnusedCIDRs`, in that order. Returns the new table contents
and the trace of adapter calls issued by the pass. -/
def reconcile (synced : Bool) (f : Faults) (cidrSets : List (cidrSetID × CIDRSet))
    (table : List WorldCIDRKey4) : List WorldCIDRKey4 × List TableOp :=
  if !synced then (table, [])
  else
    let r1 := addMissingCIDRs f cidrSets table
    let r2 := removeUnusedCIDRs f cidrSets r1.1
    (r2.1, r1.2 ++ r2.2)

/-- The world of the manager: its store (`cidrSets`), the contents of the
world-CIDRs BPF map, and the cumulative trace of adapter calls. -/
structure SysState where
  cidrSets : List (cidrSetID × CIDRSet)
  worldCIDRsMap : List WorldCIDRKey4
  trace : List TableOp
deriving DecidableEq, Repr

/-- A call of `manager.reconcile()` on the ambient state: the store is
only read, the table is replaced by the pass result, and the pass's
adapter calls are appended to the trace. -/
def runReconcile (synced : Bool) (f : Faults) (st : SysState) : SysState :=
  let r := reconcile synced f st.cidrSets st.worldCIDRsMap
  { cidrSets := st.cidrSets, worldCIDRsMap := r.1, trace := st.trace ++ r.2 }

/-- `Manager.OnAddWorldCIDRSet`: store the set under its id (wholesale
replacement of a present entry), then reconcile. -/
def OnAddWorldCIDRSet (synced : Bool) (f : Faults) (st : SysState) (cidrSet : CIDRSet) :
    SysState :=
  runReconcile synced f
    { st with cidrSets := insertSet st.cidrSets cidrSet }

/-- `Manager.OnDeleteWorldCIDRSet`: when the id is unknown, warn and
return (no store change, no reconcile); otherwise delete the entry and
reconcile. -/
def OnDeleteWorldCIDRSet (synced : Bool) (f : Faults) (st : SysState) (id : cidrSetID) :
    SysState :=
  match lookupSet st.cidrSets id with
  | none => st
  | some _ => runReconcile synced f { st with cidrSets := deleteSet st.cidrSets id }

/-- An external object event, as delivered by the watch layer. -/
inductive Event where
  | add (cidrSet : CIDRSet) : Event
  | del (id : cidrSetID) : Event
deriving DecidableEq, Repr

/-- Dispatch one event to its handler; `synced` is the readiness oracle's
answer during the event's reconciliation. -/
def processEvent (synced : Bool) (f : Faults) (st : SysState) : Event → SysState
  | .add cidrSet => OnAddWorldCIDRSet synced f st cidrSet
  | .del id => OnDeleteWorldCIDRSet synced f st id

/-- Process a sequence of events under a fixed readiness answer. -/
def processEvents (synced : Bool) (f : Faults) : SysState → List Event → SysState
  | st, [] => st
  | st, e :: es => processEvents synced f (processEvent synced f st e) es

/-- Process a sequence of events, each paired with the readiness oracle's
answer at the moment its reconciliation runs (the oracle is re-queried by
`reconcile` at every invocation). -/
def processEventsWithOracle (f : Faults) : SysState → List (Bool × Event) → SysState
  | st, [] => st
  | st, (synced, e) :: es => processEventsWithOracle f (processEvent synced f st e) es

/-! ### Basic lemmas about the embedding -/

@[simp] theorem noFaults_addFails (k : WorldCIDRKey4) : noFaults.addFails k = false := rfl

@[simp] theorem noFaults_delFails (k : WorldCIDRKey4) : noFaults.delFails k = false := rfl

theorem mem_insertKey {x k : WorldCIDRKey4} {t : List WorldCIDRKey4} :
    x ∈ insertKey k t ↔ x = k ∨ x ∈ t := by
  by_cases h : k ∈ t
  · simp only [insertKey, if_pos h]
    exact ⟨Or.inr, fun h' => h'.elim (fun e => e ▸ h) id⟩
  · simp [insertKey, if_neg h, List.mem_append, or_comm]

theorem Matches_iff {k : WorldCIDRKey4} {cidr : IPNet} :
    k.Matches cidr = true ↔ k = NewWorldCIDRKey4 cidr := by
  simp [WorldCIDRKey4.Matches]

theorem inAnySet_iff {cidrSets : List (cidrSetID × CIDRSet)} {k : WorldCIDRKey4} :
    inAnySet cidrSets k = true ↔ k ∈ desiredKeys cidrSets := by
  simp only [inAnySet, desiredKeys, allCIDRs, List.any_eq_true, List.mem_flatMap,
    List.mem_map, Matches_iff]
  aesop

/-! ### Traces and table contents of the two phases -/

theorem addMissingLoop_trace (f : Faults) (snap : List WorldCIDRKey4) (cs : List IPNet)
    (t : List WorldCIDRKey4) (tr : List TableOp) :
    (addMissingLoop f snap cs (t, tr)).2 =
      tr ++ ((cs.map NewWorldCIDRKey4).filter (fun k => decide (k ∉ snap))).map TableOp.add := by
  induction cs generalizing t tr with
  | nil => simp [addMissingLoop]
  | cons c cs ih =>
    simp only [addMissingLoop, addCIDR, List.map_cons, List.filter_cons]
    by_cases h : NewWorldCIDRKey4 c ∈ snap
    · simp [h, ih]
    · by_cases hf : f.addFails (NewWorldCIDRKey4 c) = true <;> simp [h, hf, ih]

theorem addMissingLoop_mem (snap : List WorldCIDRKey4) (cs : List IPNet)
    (t : List WorldCIDRKey4) (tr : List TableOp) (x : WorldCIDRKey4) :
    x ∈ (addMissingLoop noFaults snap cs (t, tr)).1 ↔
      x ∈ t ∨ (x ∈ cs.map NewWorldCIDRKey4 ∧ x ∉ snap) := by
  induction cs generalizing t tr with
  | nil => simp [addMissingLoop]
  | cons c cs ih =>
    simp only [addMissingLoop, addCIDR]
    by_cases h : NewWorldCIDRKey4 c ∈ snap
    · rw [if_pos h, ih]
      simp only [List.map_cons, List.mem_cons]
      aesop
    · rw [if_neg h]
      simp only [noFaults_addFails, Bool.false_eq_true, if_false]
      rw [ih]
      simp only [mem_insertKey, List.map_cons, List.mem_cons]
      aesop

theorem addMissingLoop_noop (f : Faults) (snap : List WorldCIDRKey4) (cs : List IPNet)
    (st : List WorldCIDRKey4 × List TableOp)
    (h : ∀ c ∈ cs, NewWorldCIDRKey4 c ∈ snap) :
    addMissingLoop f snap cs st = st := by
  induction cs with
  | nil => rfl
  | cons c cs ih =>
    simp only [addMissingLoop, addCIDR]
    rw [if_pos (h c (List.mem_cons_self c cs))]
    exact ih (fun c' hc' => h c' (List.mem_cons_of_mem c hc'))

theorem removeUnusedLoop_trace (f : Faults) (cidrSets : List (cidrSetID × CIDRSet))
    (ks : List WorldCIDRKey4) (t : List WorldCIDRKey4) (tr : List TableOp) :
    (removeUnusedLoop f cidrSets ks (t, tr)).2 =
      tr ++ (ks.filter (fun k => !inAnySet cidrSets k)).map TableOp.delete := by
  induction ks generalizing t tr with
  | nil => simp [removeUnusedLoop]
  | cons k ks ih =>
    simp only [removeUnusedLoop, List.filter_cons]
    by_cases h : inAnySet cidrSets k = true
    · simp [h, ih]
    · by_cases hf : f.delFails k = true <;> simp [h, hf, ih]

theorem removeUnusedLoop_mem (cidrSets : List (cidrSetID × CIDRSet))
    (ks : List WorldCIDRKey4) (t : List WorldCIDRKey4) (tr : List TableOp)
    (x : WorldCIDRKey4) :
    x ∈ (removeUnusedLoop noFaults cidrSets ks (t, tr)).1 ↔
      x ∈ t ∧ (inAnySet cidrSets x = true ∨ x ∉ ks) := by
  induction ks generalizing t tr with
  | nil => simp [removeUnusedLoop]
  | cons k ks ih =>
    simp only [removeUnusedLoop]
    by_cases h : inAnySet cidrSets k = true
    · rw [if_pos h, ih]
      simp only [List.mem_cons, not_or]
      constructor
      · rintro ⟨ht, hor⟩
        refine ⟨ht, ?_⟩
        rcases hor with hin | hnk
        · exact Or.inl hin
        · by_cases hx : x = k
          · exact Or.inl (hx ▸ h)
          · exact Or.inr ⟨hx, hnk⟩
      · rintro ⟨ht, hor⟩
        refine ⟨ht, ?_⟩
        rcases hor with hin | ⟨hxk, hnk⟩
        · exact Or.inl hin
        · exact Or.inr hnk
    · rw [if_neg h]
      simp only [noFaults_delFails, Bool.false_eq_true, if_false]
      rw [ih]
      simp only [List.mem_filter, Bool.not_eq_true', decide_eq_false_iff_not,
        List.mem_cons]
      aesop

theorem removeUnusedLoop_noop (f : Faults) (cidrSets : List (cidrSetID × CIDRSet))
    (ks : List WorldCIDRKey4) (st : List WorldCIDRKey4 × List TableOp)
    (h : ∀ k ∈ ks, inAnySet cidrSets k = true) :
    removeUnusedLoop f cidrSets ks st = st := by
  induction ks with
  | nil => rfl
  | cons k ks ih =>
    simp only [removeUnusedLoop]
    rw [if_pos (h k (List.mem_cons_self k ks))]
    exact ih (fun k' hk' => h k' (List.mem_cons_of_mem k hk'))

theorem addMissingCIDRs_trace (f : Faults) (cidrSets : List (cidrSetID × CIDRSet))
    (table : List WorldCIDRKey4) :
    (addMissingCIDRs f cidrSets table).2 =
      TableOp.iterate ::
        ((desiredKeys cidrSets).filter (fun k => decide (k ∉ table))).map TableOp.add := by
  simp [addMissingCIDRs, addMissingLoop_trace, desiredKeys]

theorem addMissingCIDRs_mem (cidrSets : List (cidrSetID × CIDRSet))
    (table : List WorldCIDRKey4) (x : WorldCIDRKey4) :
    x ∈ (addMissingCIDRs noFaults cidrSets table).1 ↔
      x ∈ table ∨ x ∈ desiredKeys cidrSets := by
  rw [addMissingCIDRs, addMissingLoop_mem, ← desiredKeys]
  tauto

theorem removeUnusedCIDRs_trace (f : Faults) (cidrSets : List (cidrSetID × CIDRSet))
    (table : List WorldCIDRKey4) :
    (removeUnusedCIDRs f cidrSets table).2 =
      TableOp.iterate ::
        (table.filter (fun k => !inAnySet cidrSets k)).map TableOp.delete := by
  simp [removeUnusedCIDRs, removeUnusedLoop_trace]

theorem removeUnusedCIDRs_mem (cidrSets : List (cidrSetID × CIDRSet))
    (table : List WorldCIDRKey4) (x : WorldCIDRKey4) :
    x ∈ (removeUnusedCIDRs noFaults cidrSets table).1 ↔
      x ∈ table ∧ x ∈ desiredKeys cidrSets := by
  rw [removeUnusedCIDRs, removeUnusedLoop_mem]
  rw [inAnySet_iff]
  tauto

theorem reconcile_split (f : Faults) (cidrSets : List (cidrSetID × CIDRSet))
    (table : List WorldCIDRKey4) :
    reconcile true f cidrSets table =
      ((removeUnusedCIDRs f cidrSets (addMissingCIDRs f cidrSets table).1).1,
       (addMissingCIDRs f cidrSets table).2 ++
         (removeUnusedCIDRs f cidrSets (addMissingCIDRs f cidrSets table).1).2) := by
  simp [reconcile]

theorem reconcile_mem (cidrSets : List (cidrSetID × CIDRSet))
    (table : List WorldCIDRKey4) (x : WorldCIDRKey4) :
    x ∈ (reconcile true noFaults cidrSets table).1 ↔ x ∈ desiredKeys cidrSets := by
  rw [reconcile_split]
  simp only [removeUnusedCIDRs_mem, addMissingCIDRs_mem]
  tauto

/-! ### Concrete data used by witnesses and counterexamples -/

/-- Identity of the example set named a. -/
def exIdA : cidrSetID := { Namespace := "default", Name := "set-a" }

/-- Identity of the example set named b. -/
def exIdB : cidrSetID := { Namespace := "default", Name := "set-b" }

/-- The CIDR 10.0.0.0/8. -/
def exCidrA : IPNet := { addr := 167772160, prefixLen := 8 }

/-- The CIDR 192.168.0.0/16. -/
def exCidrB : IPNet := { addr := 3232235520, prefixLen := 16 }

/-- The CIDR 10.0.0.0/16: strictly covered by 10.0.0.0/8 but not equal. -/
def exCidrA16 : IPNet := { addr := 167772160, prefixLen := 16 }

def exKeyA : WorldCIDRKey4 := NewWorldCIDRKey4 exCidrA

def exKeyB : WorldCIDRKey4 := NewWorldCIDRKey4 exCidrB

def exKeyA16 : WorldCIDRKey4 := NewWorldCIDRKey4 exCidrA16

def exSetA : CIDRSet := { id := exIdA, cidrs := [exCidrA] }

def exSetB : CIDRSet := { id := exIdB, cidrs := [exCidrB] }

/-! ### Store lemmas -/

theorem lookupSet_insertSet (cidrSets : List (cidrSetID × CIDRSet)) (s : CIDRSet) :
    lookupSet (insertSet cidrSets s) s.id = some s := by
  induction cidrSets with
  | nil => simp [insertSet, lookupSet]
  | cons p ps ih =>
    simp only [insertSet]
    by_cases h : p.1 = s.id
    · simp [h, lookupSet]
    · simp [h, lookupSet, ih]


/-! ### Claim C1 -/

/-- Claim C1: for every desired-state store contents and every initial
table contents, a reconciliation pass that runs while ready and whose
table `Add` and `Delete` calls all succeed leaves the table's set of entry
prefixes exactly equal to the union of normalized prefixes across all CIDR
sets in the store. -/
theorem reconcile_convergence (cidrSets : List (cidrSetID × CIDRSet))
    (table : List WorldCIDRKey4) (k : WorldCIDRKey4) :
    k ∈ (reconcile true noFaults cidrSets table).1 ↔ k ∈ desiredKeys cidrSets :=
  reconcile_mem cidrSets table k

/-! ### Claim C3 -/

theorem reconcile_second_pass (cidrSets : List (cidrSetID × CIDRSet))
    (table : List WorldCIDRKey4) (f' : Faults) :
    reconcile true f' cidrSets (reconcile true noFaults cidrSets table).1 =
      ((reconcile true noFaults cidrSets table).1, [TableOp.iterate, TableOp.iterate]) := by
  have hmem : ∀ k, k ∈ (reconcile true noFaults cidrSets table).1 ↔ k ∈ desiredKeys cidrSets :=
    fun k => reconcile_mem cidrSets table k
  have h1 : addMissingCIDRs f' cidrSets (reconcile true noFaults cidrSets table).1 =
      ((reconcile true noFaults cidrSets table).1, [TableOp.iterate]) := by
    rw [addMissingCIDRs]
    exact addMissingLoop_noop f' _ _ _
      (fun c hc => (hmem _).2 (List.mem_map_of_mem NewWorldCIDRKey4 hc))
  have h2 : removeUnusedCIDRs f' cidrSets (reconcile true noFaults cidrSets table).1 =
      ((reconcile true noFaults cidrSets table).1, [TableOp.iterate]) := by
    rw [removeUnusedCIDRs]
    exact removeUnusedLoop_noop f' _ _ _
      (fun k hk => inAnySet_iff.2 ((hmem k).1 hk))
  rw [reconcile_split, h1, h2]
  rfl

/-- Claim C3: invoking `reconcile` a second time, with no store mutation in
between, after a first invocation in which all table I/O succeeded, issues
zero table `Add` calls and zero table `Delete` calls (its trace holds no
mutating adapter call, whatever the adapter would do on the second pass). -/
theorem reconcile_idempotent (cidrSets : List (cidrSetID × CIDRSet))
    (table : List WorldCIDRKey4) (f' : Faults) :
    ((reconcile true f' cidrSets (reconcile true noFaults cidrSets table).1).2).filter
      TableOp.isMutation = [] := by
  rw [reconcile_second_pass]
  rfl

/-! ### Claim C4 -/

theorem processEvent_cidrSets_congr (b b' : Bool) (f g : Faults) (st st' : SysState)
    (e : Event) (h : st.cidrSets = st'.cidrSets) :
    (processEvent b f st e).cidrSets = (processEvent b' g st' e).cidrSets := by
  cases e with
  | add s => simp [processEvent, OnAddWorldCIDRSet, runReconcile, h]
  | del id =>
    simp only [processEvent, OnDeleteWorldCIDRSet, h]
    rcases hl : lookupSet st'.cidrSets id with _ | s <;> simp [hl, runReconcile, h]

theorem processEvent_notReady (f : Faults) (st : SysState) (e : Event) :
    (processEvent false f st e).worldCIDRsMap = st.worldCIDRsMap ∧
    (processEvent false f st e).trace = st.trace := by
  cases e with
  | add s => simp [processEvent, OnAddWorldCIDRSet, runReconcile, reconcile]
  | del id =>
    simp only [processEvent, OnDeleteWorldCIDRSet]
    rcases hl : lookupSet st.cidrSets id with _ | s <;>
      simp [hl, runReconcile, reconcile]

theorem processEvents_pre (f : Faults) (es : List Event) :
    ∀ st st' : SysState, st.cidrSets = st'.cidrSets →
      (processEvents false f st es).worldCIDRsMap = st.worldCIDRsMap ∧
      (processEvents false f st es).trace = st.trace ∧
      (processEvents false f st es).cidrSets =
        (processEvents true noFaults st' es).cidrSets := by
  induction es with
  | nil => exact fun st st' h => ⟨rfl, rfl, h⟩
  | cons e es ih =>
    intro st st' h
    obtain ⟨ht, htr⟩ := processEvent_notReady f st e
    obtain ⟨ih1, ih2, ih3⟩ :=
      ih (processEvent false f st e) (processEvent true noFaults st' e)
        (processEvent_cidrSets_congr false true f noFaults st st' e h)
    exact ⟨ih1.trans ht, ih2.trans htr, ih3⟩

/-- Claim C4: processing any sequence of `OnAddWorldCIDRSet` /
`OnDeleteWorldCIDRSet` events while the readiness oracle reports
not-synced issues zero table adapter calls and leaves the table alone,
while updating the desired-state store exactly as the same sequence would
after readiness. -/
theorem preReadiness_noop (f : Faults) (st : SysState) (es : List Event) :
    (processEvents false f st es).worldCIDRsMap = st.worldCIDRsMap ∧
    (processEvents false f st es).trace = st.trace ∧
    (processEvents false f st es).cidrSets =
      (processEvents true noFaults st es).cidrSets :=
  processEvents_pre f es st st rfl

/-! ### Claim C9 -/

/-- Claim C9: `OnDeleteWorldCIDRSet` for an identity absent from the store
is a successful no-op: the whole state — store, table and adapter-call
trace — is left unchanged. -/
theorem onDelete_unknown_noop (synced : Bool) (f : Faults) (st : SysState)
    (id : cidrSetID) (h : lookupSet st.cidrSets id = none) :
    OnDeleteWorldCIDRSet synced f st id = st := by
  simp [OnDeleteWorldCIDRSet, h]

theorem onDelete_unknown_noop_witness :
    lookupSet (SysState.mk [] [] []).cidrSets exIdA = none ∧
    OnDeleteWorldCIDRSet true noFaults (SysState.mk [] [] []) exIdA =
      SysState.mk [] [] [] :=
  ⟨by decide, onDelete_unknown_noop true noFaults (SysState.mk [] [] []) exIdA (by decide)⟩

/-! ### Claim C10 -/

/-- Claim C10: a reconciliation pass never mutates the desired-state
store: for every readiness answer, fault behaviour of the table adapter
and ambient state, the store after `reconcile` equals the store before
it. -/
theorem reconcile_preserves_store (synced : Bool) (f : Faults) (st : SysState) :
    (runReconcile synced f st).cidrSets = st.cidrSets := rfl

/-! ### Claim C2 -/

theorem adds_before_deletes (l l1 l2 : List TableOp) (hl : l = l1 ++ l2)
    (h1 : ∀ op ∈ l1, op.isDelete = false)
    (h2 : ∀ op ∈ l2, op.isAdd = false)
    (i j : Nat) (hi : i < l.length) (hj : j < l.length)
    (ha : (l.get ⟨i, hi⟩).isAdd = true)
    (hd : (l.get ⟨j, hj⟩).isDelete = true) : i < j := by
  subst hl
  have hil : i < l1.length := by
    by_contra hc
    push_neg at hc
    have hb : i - l1.length < l2.length := by
      rw [List.length_append] at hi
      omega
    have he : (l1 ++ l2).get ⟨i, hi⟩ = l2.get ⟨i - l1.length, hb⟩ := by
      rw [List.get_append_right l1 l2 hc]
    rw [he, h2 _ (List.get_mem l2 _ hb)] at ha
    exact absurd ha (by decide)
  have hjl : l1.length ≤ j := by
    by_contra hc
    push_neg at hc
    have he : (l1 ++ l2).get ⟨j, hj⟩ = l1.get ⟨j, hc⟩ := List.get_append j hc
    rw [he, h1 _ (List.get_mem l1 _ hc)] at hd
    exact absurd hd (by decide)
  omega

/-- Claim C2: within one reconciliation pass, every table `Add` call is
issued before any table `Delete` call: in the pass's trace, any add
occupies a strictly earlier position than any delete, for every desired
state, table state and fault behaviour. -/
theorem reconcile_phase_ordering (f : Faults) (cidrSets : List (cidrSetID × CIDRSet))
    (table : List WorldCIDRKey4) (i j : Nat)
    (hi : i < ((reconcile true f cidrSets table).2).length)
    (hj : j < ((reconcile true f cidrSets table).2).length)
    (ha : (((reconcile true f cidrSets table).2).get ⟨i, hi⟩).isAdd = true)
    (hd : (((reconcile true f cidrSets table).2).get ⟨j, hj⟩).isDelete = true) :
    i < j := by
  refine adds_before_deletes _ (addMissingCIDRs f cidrSets table).2
    (removeUnusedCIDRs f cidrSets (addMissingCIDRs f cidrSets table).1).2
    (by rw [reconcile_split]) ?_ ?_ i j hi hj ha hd
  · intro op hop
    rw [addMissingCIDRs_trace] at hop
    rcases List.mem_cons.1 hop with rfl | hm
    · rfl
    · obtain ⟨x, -, rfl⟩ := List.mem_map.1 hm
      rfl
  · intro op hop
    rw [removeUnusedCIDRs_trace] at hop
    rcases List.mem_cons.1 hop with rfl | hm
    · rfl
    · obtain ⟨x, -, rfl⟩ := List.mem_map.1 hm
      rfl

theorem reconcile_phase_ordering_witness :
    1 < ((reconcile true noFaults [(exIdA, exSetA)] [exKeyB]).2).length ∧
    3 < ((reconcile true noFaults [(exIdA, exSetA)] [exKeyB]).2).length ∧
    1 < 3 := by
  have hlen : ((reconcile true noFaults [(exIdA, exSetA)] [exKeyB]).2).length = 4 := by rfl
  have h1 : 1 < ((reconcile true noFaults [(exIdA, exSetA)] [exKeyB]).2).length := by
    rw [hlen]
    omega
  have h3 : 3 < ((reconcile true noFaults [(exIdA, exSetA)] [exKeyB]).2).length := by
    rw [hlen]
    omega
  exact ⟨h1, h3,
    reconcile_phase_ordering noFaults [(exIdA, exSetA)] [exKeyB] 1 3 h1 h3
      (by rfl) (by rfl)⟩

/-! ### Claim C5 -/

/-- The two-event run refuting the latch reading of readiness: the oracle
answers synced for the first event and not-synced for the second. -/
def exRun : SysState :=
  processEventsWithOracle noFaults (SysState.mk [] [] [])
    [(true, Event.add exSetA), (false, Event.add exSetB)]

/-- Claim C5 counterexample: readiness is not a one-shot latch.  After the
oracle's first positive observation (the first event reconciles and
populates the table), a reconciliation invoked while the oracle answers
not-synced is again a not-ready no-op: the second event issues zero
adapter calls and leaves the desired prefix of set b out of the table. -/
theorem readiness_latch_counterexample :
    exKeyB ∈ desiredKeys exRun.cidrSets ∧
    exKeyB ∉ exRun.worldCIDRsMap ∧
    exRun.trace = [TableOp.iterate, TableOp.add exKeyA, TableOp.iterate] := by
  decide

/-- Claim C5 (amended): the manager stores no readiness latch; `reconcile`
re-queries the oracle at every invocation, and a pass is a not-ready no-op
(zero adapter calls) exactly when the oracle reports not-synced at that
invocation — regardless of any earlier positive observation. -/
theorem reconcile_noop_iff_not_synced (synced : Bool) (f : Faults)
    (cidrSets : List (cidrSetID × CIDRSet)) (table : List WorldCIDRKey4) :
    (reconcile synced f cidrSets table).2 = [] ↔ synced = false := by
  cases synced
  · simp [reconcile]
  · simp [reconcile_split, addMissingCIDRs_trace]

/-! ### Claim C6 -/

/-- Claim C6: when an entry is already stored under the incoming set's
identity, `OnAddWorldCIDRSet` replaces it wholesale — afterwards the store
maps that identity to exactly the new set — and a subsequent successful
reconciliation (the one the handler itself runs) leaves the table holding
exactly the new desired union, in which the identity contributes only the
new set's prefixes. -/
theorem onAdd_overwrites (st : SysState) (s : CIDRSet)
    (h : (lookupSet st.cidrSets s.id).isSome = true) :
    lookupSet (OnAddWorldCIDRSet true noFaults st s).cidrSets s.id = some s ∧
    ∀ k, k ∈ (OnAddWorldCIDRSet true noFaults st s).worldCIDRsMap ↔
      k ∈ desiredKeys (insertSet st.cidrSets s) :=
  ⟨lookupSet_insertSet st.cidrSets s,
   fun k => reconcile_mem (insertSet st.cidrSets s) st.worldCIDRsMap k⟩

/-- The pre-state for the overwrite witness: identity a currently owns
192.168.0.0/16 and the table reflects it. -/
def exStC6 : SysState :=
  SysState.mk [(exIdA, CIDRSet.mk exIdA [exCidrB])] [exKeyB] []

/-- The update arriving for identity a: it now owns only 10.0.0.0/8. -/
def exNewA : CIDRSet := CIDRSet.mk exIdA [exCidrA]

theorem onAdd_overwrites_witness :
    (lookupSet exStC6.cidrSets exNewA.id).isSome = true ∧
    (lookupSet (OnAddWorldCIDRSet true noFaults exStC6 exNewA).cidrSets exNewA.id =
        some exNewA ∧
      ∀ k, k ∈ (OnAddWorldCIDRSet true noFaults exStC6 exNewA).worldCIDRsMap ↔
        k ∈ desiredKeys (insertSet exStC6.cidrSets exNewA)) :=
  ⟨by decide, onAdd_overwrites exStC6 exNewA (by decide)⟩

/-! ### Claim C7 -/

/-- Claim C7: in phase 2, a `Delete` call is issued for a snapshot entry
if and only if its normalized prefix is not exactly equal to any
normalized prefix of the desired union — matching is exact-value equality,
never subset or superset overlap, so a strictly covered entry is still
deleted (see the witness with 10.0.0.0/16 against desired 10.0.0.0/8). -/
theorem removeUnused_exact_match (f : Faults) (cidrSets : List (cidrSetID × CIDRSet))
    (table : List WorldCIDRKey4) (k : WorldCIDRKey4) (hk : k ∈ table) :
    TableOp.delete k ∈ (removeUnusedCIDRs f cidrSets table).2 ↔
      k ∉ desiredKeys cidrSets := by
  rw [removeUnusedCIDRs_trace]
  simp only [List.mem_cons, List.mem_map, List.mem_filter, Bool.not_eq_true',
    TableOp.delete.injEq, reduceCtorEq, false_or]
  constructor
  · rintro ⟨x, ⟨hxt, hxf⟩, rfl⟩ hdes
    rw [inAnySet_iff.2 hdes] at hxf
    exact absurd hxf (by decide)
  · intro hdes
    exact ⟨k, ⟨hk, Bool.eq_false_iff.2 (fun hab => hdes (inAnySet_iff.1 hab))⟩, rfl⟩

theorem removeUnused_exact_match_witness :
    exKeyA16 ∈ [exKeyA16] ∧
    (TableOp.delete exKeyA16 ∈
        (removeUnusedCIDRs noFaults [(exIdA, exSetA)] [exKeyA16]).2 ↔
      exKeyA16 ∉ desiredKeys [(exIdA, exSetA)]) :=
  ⟨by decide,
    removeUnused_exact_match noFaults [(exIdA, exSetA)] [exKeyA16] exKeyA16 (by decide)⟩

/-! ### Claim C8 -/

/-- Claim C8: when one of the desired-but-missing prefixes fails to add,
the pass still issues an `Add` call for every desired-but-missing prefix
(so the other N−1 are attempted), phase 2 still executes within the same
pass (both phase snapshots are taken: the trace holds exactly two
`Iterate` calls), and the failed prefix is attempted exactly once — it is
not retried within the pass.  No error is returned to the event handler:
the pass only produces its trace. -/
theorem addFailure_isolation (f : Faults) (cidrSets : List (cidrSetID × CIDRSet))
    (table : List WorldCIDRKey4) (k0 : WorldCIDRKey4)
    (hnodup : (desiredKeys cidrSets).Nodup)
    (hdes : k0 ∈ desiredKeys cidrSets) (hmiss : k0 ∉ table)
    (hfail : f.addFails k0 = true) :
    (∀ k, k ∈ desiredKeys cidrSets → k ∉ table →
        TableOp.add k ∈ (reconcile true f cidrSets table).2) ∧
    (reconcile true f cidrSets table).2.count TableOp.iterate = 2 ∧
    (reconcile true f cidrSets table).2.count (TableOp.add k0) = 1 := by
  have htr : (reconcile true f cidrSets table).2 =
      (TableOp.iterate ::
        (((desiredKeys cidrSets).filter (fun k => decide (k ∉ table))).map TableOp.add)) ++
      (TableOp.iterate ::
        (((addMissingCIDRs f cidrSets table).1.filter
            (fun k => !inAnySet cidrSets k)).map TableOp.delete)) := by
    rw [reconcile_split]
    show (addMissingCIDRs f cidrSets table).2 ++
        (removeUnusedCIDRs f cidrSets (addMissingCIDRs f cidrSets table).1).2 = _
    rw [addMissingCIDRs_trace, removeUnusedCIDRs_trace]
  have hinj : Function.Injective TableOp.add := fun a b hab => by injection hab
  refine ⟨?_, ?_, ?_⟩
  · intro k hkdes hktab
    rw [htr]
    refine List.mem_append_left _ (List.mem_cons_of_mem _ ?_)
    exact List.mem_map.2
      ⟨k, List.mem_filter.2 ⟨hkdes, decide_eq_true hktab⟩, rfl⟩
  · rw [htr, List.count_append, List.count_cons_self, List.count_cons_self]
    have hA : (((desiredKeys cidrSets).filter
        (fun k => decide (k ∉ table))).map TableOp.add).count TableOp.iterate = 0 :=
      List.count_eq_zero.2 (by simp)
    have hD : ((((addMissingCIDRs f cidrSets table).1).filter
        (fun k => !inAnySet cidrSets k)).map TableOp.delete).count TableOp.iterate = 0 :=
      List.count_eq_zero.2 (by simp)
    rw [hA, hD]
  · rw [htr, List.count_append,
      List.count_cons_of_ne (by simp : TableOp.add k0 ≠ TableOp.iterate),
      List.count_cons_of_ne (by simp : TableOp.add k0 ≠ TableOp.iterate)]
    have hD : ((((addMissingCIDRs f cidrSets table).1).filter
        (fun k => !inAnySet cidrSets k)).map TableOp.delete).count (TableOp.add k0) = 0 :=
      List.count_eq_zero.2 (by simp)
    rw [hD, List.count_map_of_injective _ TableOp.add hinj k0]
    have hk0 : k0 ∈ (desiredKeys cidrSets).filter (fun k => decide (k ∉ table)) :=
      List.mem_filter.2 ⟨hdes, decide_eq_true hmiss⟩
    rw [List.count_eq_one_of_mem (hnodup.filter _) hk0]

/-- The set owning both example prefixes, used by the failure-isolation
witness. -/
def exSetAB : CIDRSet := CIDRSet.mk exIdA [exCidrA, exCidrB]

/-- A fault model in which only the `Add` of key a fails. -/
def exFail : Faults := Faults.mk (fun k => decide (k = exKeyA)) (fun _ => false)

theorem addFailure_isolation_witness :
    (desiredKeys [(exIdA, exSetAB)]).Nodup ∧
    exKeyA ∈ desiredKeys [(exIdA, exSetAB)] ∧
    exKeyA ∉ ([] : List WorldCIDRKey4) ∧
    exFail.addFails exKeyA = true ∧
    ((∀ k, k ∈ desiredKeys [(exIdA, exSetAB)] → k ∉ ([] : List WorldCIDRKey4) →
        TableOp.add k ∈ (reconcile true exFail [(exIdA, exSetAB)] []).2) ∧
      (reconcile true exFail [(exIdA, exSetAB)] []).2.count TableOp.iterate = 2 ∧
      (reconcile true exFail [(exIdA, exSetAB)] []).2.count (TableOp.add exKeyA) = 1) :=
  ⟨by decide, by decide, by decide, by decide,
    addFailure_isolation exFail [(exIdA, exSetAB)] [] exKeyA
      (by decide) (by decide) (by decide) (by decide)⟩
